import Mathlib

/- Verification development for the ScienceIO TypeScript client (src/index.ts).
   Strings are modelled as lists of characters; the JS string operations
   slice, lastIndexOf and index access become List.take / List.drop /
   List.get?; thrown exceptions become Except; the asynchronous polling
   loop is modelled with explicit fuel and an explicit millisecond clock
   that advances exactly at awaited suspension points. -/

namespace config

def DEFAULT_TIMEOUT : Nat := 1200

def MAX_POLL_DURATION_SEC : Nat := 300

def POLL_SLEEP_DURATION_SEC : Nat := 2

def MAX_CHARACTERS : Nat := 10000

end config

/- JS String.prototype.lastIndexOf for a one-character needle; none models
   the JS return value -1. -/
def lastIndexOf (c : Char) : List Char → Option Nat
  | [] => none
  | x :: xs =>
    match lastIndexOf c xs with
    | some i => some (i + 1)
    | none => if x = c then some 0 else none

/- One iteration of the chunking while-loop in annotate (index.ts 154-172).
   spliced_text = text.slice(0, MAX_CHARACTERS); last_char is
   spliced_text[spliced_text.length - 1]; next_char is
   text[spliced_text.length] (undefined = none).  Returns the chunk pushed
   by this iteration together with the remaining text. -/
def segStep (maxLen : Nat) (text : List Char) : List Char × List Char :=
  let spliced_text := text.take maxLen
  let last_char : Option Char := spliced_text.getLast?
  let next_char : Option Char := text.get? spliced_text.length
  if last_char ≠ some ' ' ∧ next_char ≠ some ' ' ∧ next_char ≠ none then
    let trimmed := spliced_text.take (match lastIndexOf ' ' spliced_text with
      | some i => i + 1
      | none => 0)
    (trimmed, text.drop trimmed.length)
  else
    (spliced_text, text.drop maxLen)

/- The chunking while-loop itself (while (text.length > 0) ...), with
   explicit fuel: some chunks when the loop exits within fuel iterations,
   none when it does not (the loop can genuinely diverge, see below). -/
def segLoop (maxLen : Nat) : Nat → List Char → Option (List (List Char))
  | 0, text => if 0 < text.length then none else some []
  | fuel + 1, text =>
    if 0 < text.length then
      (segLoop maxLen fuel (segStep maxLen text).2).map
        (fun rest => (segStep maxLen text).1 :: rest)
    else some []

/- A single token longer than MAX_CHARACTERS with further text behind it:
   the window contains no space, so lastIndexOf(' ') is -1 and the loop
   body pushes the empty chunk and leaves the remaining text unchanged. -/
def badInput : List Char := List.replicate 10001 'a'

/- The error classes the SDK defines: ScienceIOError (base), HTTPError and
   TimeoutError.  The source defines no further subclasses; ERRORED jobs and
   unknown statuses are both reported through the base class. -/
inductive SIOError where
  | scienceIOError (message : String)
  | httpError (status_code : Nat) (message : String)
  | timeoutError (message : String)
deriving DecidableEq

/- JS `message ? message : dflt`: undefined and the empty string are falsy. -/
def jsOrElse (m : Option String) (dflt : String) : String :=
  match m with
  | some s => if s = "" then dflt else s
  | none => dflt

def mkScienceIOError (m : Option String) : SIOError :=
  .scienceIOError (jsOrElse m "Error in request to ScienceIO API")

def mkHTTPError (status_code : Nat) (m : Option String) : SIOError :=
  .httpError status_code (jsOrElse m "HTTP Error in request to ScienceIO API")

def mkTimeoutError (m : Option String) : SIOError :=
  .timeoutError (jsOrElse m "Timeout in request to ScienceIO API")

namespace scienceio_inference_status

def SUBMITTED : String := "SUBMITTED"

def COMPLETED : String := "COMPLETED"

def ERRORED : String := "ERRORED"

end scienceio_inference_status

namespace scienceio_model_type

def STRUCTURE : String := "structure"

def ANNOTATE : String := "annotate"

end scienceio_model_type

/- The untyped inference_result blob: the two fields the SDK reads from it. -/
structure InferenceResult where
  text : Option String
  spans : Option String
deriving DecidableEq

/- Body of a 2xx poll response: {request_id, inference_status,
   inference_result?, message?} (request_id is never read by the SDK). -/
structure PollPayload where
  inference_status : String
  inference_result : Option InferenceResult
  message : Option String
deriving DecidableEq

/- Body of a submission response: {request_id} plus an error message slot. -/
structure SubmitData where
  request_id : Option String
  message : Option String
deriving DecidableEq

/- An axios response: HTTP status plus parsed body. -/
structure HttpResponse (δ : Type) where
  status : Nat
  data : δ
deriving DecidableEq

/- The exported ScienceIOResponse interface, fields in source order:
   request_id, text, inference_status, message?, spans?, model_type.
   request_id is Option String because send_initial_request can return
   undefined at runtime (see C4). -/
structure ScienceIOResponse where
  request_id : Option String
  text : Option String
  inference_status : String
  message : Option String
  spans : Option String
  model_type : String
deriving DecidableEq

/- _response_handler (index.ts 227-233): throws HTTPError for any status
   outside 200-299, using the structured body message; otherwise no-op. -/
def _response_handler (status_code : Nat) (data_message : Option String) :
    Except SIOError Unit :=
  if status_code < 200 ∨ status_code > 299 then
    .error (mkHTTPError status_code data_message)
  else .ok ()

/- _poll_payload_handler (index.ts 235-248): the normalizer case table.
   All of its failures are built with the base ScienceIOError class. -/
def _poll_payload_handler (payload : PollPayload) :
    Except SIOError (Option InferenceResult) :=
  if payload.inference_status = scienceio_inference_status.SUBMITTED then
    .ok none
  else if payload.inference_status = scienceio_inference_status.COMPLETED then
    .ok payload.inference_result
  else if payload.inference_status = scienceio_inference_status.ERRORED then
    .error (mkScienceIOError payload.message)
  else
    .error (mkScienceIOError (some "Unknown status"))

/- send_initial_request (index.ts 103-123), applied to the HTTP response of
   the POST.  Note the strict `200 < response.status` of the source: on the
   else path the handler only throws outside 200-299, and the function then
   falls through returning undefined (modelled as .ok none). -/
def send_initial_request (response : HttpResponse SubmitData) :
    Except SIOError (Option String) :=
  if 200 < response.status ∧ response.status < 300 then
    .ok response.data.request_id
  else
    match _response_handler response.status response.data.message with
    | .error e => .error e
    | .ok _ => .ok none

/- _poll_attempt (index.ts 125-144), applied to the HTTP response of the
   GET; its success check is `199 < response.status`, unlike submission. -/
def _poll_attempt (response : HttpResponse PollPayload) :
    Except SIOError (Option InferenceResult) :=
  if 199 < response.status ∧ response.status < 300 then
    _poll_payload_handler response.data
  else
    match _response_handler response.status response.data.message with
    | .error e => .error e
    | .ok _ => .ok none

/- Remote behaviour seen by one job's polling: the HTTP response to the
   n-th poll attempt, and the wall-clock milliseconds that awaited GET
   takes.  Awaited network calls are the only suspension points. -/
structure PollJobEnv where
  response : Nat → HttpResponse PollPayload
  latency : Nat → Nat

/- setTimeout(() => { }, ms) without await (index.ts 206): it schedules a
   callback and returns at once, so the awaiting coroutine's clock does not
   advance at all. -/
def setTimeoutNoAwait (now : Nat) (_delay_ms : Nat) : Nat := now

/- The polling while-loop of _annotate_request (index.ts 202-211), with
   explicit fuel, attempt counter n and millisecond clock now.  Returns the
   completed inference_result together with its delivery time, or the
   thrown error; none when fuel runs out before the loop exits. -/
def pollLoop (env : PollJobEnv) (time_start : Nat) :
    Nat → Nat → Nat → Option (Except SIOError (InferenceResult × Nat))
  | 0, _, _ => none
  | fuel + 1, n, now =>
    if now - time_start < config.MAX_POLL_DURATION_SEC * 1000 then
      match _poll_attempt (env.response n) with
      | .error e => some (.error e)
      | .ok none =>
        pollLoop env time_start fuel (n + 1)
          (setTimeoutNoAwait (now + env.latency n)
            (config.POLL_SLEEP_DURATION_SEC * 1000))
      | .ok (some response) => some (.ok (response, now + env.latency n))
    else some (.error (mkTimeoutError none))

/- Remote behaviour seen by the whole client: the submission response and
   the polling behaviour, both per chunk text. -/
structure Env where
  submit : List Char → HttpResponse SubmitData
  pollJob : List Char → PollJobEnv

/- _annotate_request (index.ts 185-223): submit, poll to completion, then
   build the ScienceIOResponse record with the fields of the source object
   literal: request_id from submission, text and spans copied from the
   polled inference_result, inference_status and model_type hardcoded. -/
def _annotate_request (env : Env) (fuel : Nat) (text : List Char) :
    Option (Except SIOError ScienceIOResponse) :=
  match send_initial_request (env.submit text) with
  | .error e => some (.error e)
  | .ok request_id =>
    match pollLoop (env.pollJob text) 0 fuel 0 0 with
    | none => none
    | some (.error e) => some (.error e)
    | some (.ok (response, _arrival)) =>
      some (.ok ⟨request_id, response.text,
        scienceio_inference_status.COMPLETED, none, response.spans,
        scienceio_model_type.STRUCTURE⟩)

/- Outcome of annotate: the source RETURNS (does not throw) an error object
   on empty input, so that path is a distinct constructor. -/
inductive AnnotateOutcome where
  | earlyReturn (e : SIOError)
  | success (results : List ScienceIOResponse)
  | failure (e : SIOError)
deriving DecidableEq

/- Promise.all over the per-chunk request promises: all results in input
   order when every promise fulfills, the rejection otherwise; none when
   some unit ran out of fuel. -/
def collectAll :
    List (Option (Except SIOError ScienceIOResponse)) →
      Option (Except SIOError (List ScienceIOResponse))
  | [] => some (.ok [])
  | none :: _ => none
  | some (.error e) :: _ => some (.error e)
  | some (.ok r) :: rest =>
    match collectAll rest with
    | none => none
    | some (.error e) => some (.error e)
    | some (.ok rs) => some (.ok (r :: rs))

/- annotate (index.ts 146-183): empty-input check, chunking loop, one
   _annotate_request per chunk, Promise.all aggregation. -/
def annotate (env : Env) (fuel : Nat) (text : List Char) :
    Option AnnotateOutcome :=
  if text.length < 1 then
    some (.earlyReturn
      (mkScienceIOError (some "Must pass at least one character to the API")))
  else
    match segLoop config.MAX_CHARACTERS fuel text with
    | none => none
    | some chunks =>
      match collectAll (chunks.map (_annotate_request env fuel)) with
      | none => none
      | some (.error e) => some (.failure e)
      | some (.ok results) => some (.success results)

/- Scheduling model of Promise.all's aggregation: each unit's completion is
   an event (slot index, value) arriving in arbitrary order; every settled
   value is stored at the slot of that promise's position in the input
   array, and the promise resolves with the slots read in index order. -/
def promiseAllSettle {α : Type} (slots : List (Option α))
    (events : List (Nat × α)) : List (Option α) :=
  events.foldl (fun acc e => acc.set e.1 (some e.2)) slots

/- Poll endpoint reporting SUBMITTED three times and then COMPLETED, every
   network call instantaneous (spec Scenario 4). -/
def pollEnvScenario4 : PollJobEnv :=
  ⟨fun n => if n < 3 then ⟨200, ⟨"SUBMITTED", none, none⟩⟩
    else ⟨200, ⟨"COMPLETED", some ⟨some "annotated text", none⟩, none⟩⟩,
   fun _ => 0⟩

/- Poll endpoint that always reports SUBMITTED, each awaited network round
   trip taking one millisecond (spec Scenario 5). -/
def pollEnvStuck : PollJobEnv :=
  ⟨fun _ => ⟨200, ⟨"SUBMITTED", none, none⟩⟩, fun _ => 1⟩

/- A fully healthy remote: submission answers 201 with request id "req-1";
   the first poll reports COMPLETED with a server-side result whose text
   differs from any submitted chunk. -/
def envHappy : Env :=
  ⟨fun _ => ⟨201, ⟨some "req-1", none⟩⟩,
   fun _ => ⟨fun _ =>
      ⟨200, ⟨"COMPLETED", some ⟨some "SERVER TEXT", some "SERVER SPANS"⟩, none⟩⟩,
     fun _ => 0⟩⟩

/- The ScienceIOResponse that envHappy produces for every chunk. -/
def happyResponse : ScienceIOResponse :=
  ⟨some "req-1", some "SERVER TEXT", "COMPLETED", none, some "SERVER SPANS",
   "structure"⟩

/- An arbitrary broken remote (submission always fails with 500), used
   where a statement holds for every environment. -/
def envDown : Env :=
  ⟨fun _ => ⟨500, ⟨none, some "server error"⟩⟩,
   fun _ => ⟨fun _ => ⟨500, ⟨"", none, some "server error"⟩⟩, fun _ => 1⟩⟩

lemma drop_length_take (n : Nat) (l : List α) :
    l.drop ((l.take n).length) = l.drop n := by
  rw [List.length_take]
  rcases Nat.le_total n l.length with h | h
  · rw [Nat.min_eq_left h]
  · rw [Nat.min_eq_right h, List.drop_length, List.drop_eq_nil_of_le h]

lemma segStep_append (maxLen : Nat) (text : List Char) :
    (segStep maxLen text).1 ++ (segStep maxLen text).2 = text := by
  unfold segStep
  dsimp only
  split
  · simp only [List.take_take]
    rw [drop_length_take, List.take_append_drop]
  · exact List.take_append_drop _ _

lemma segLoop_flatten (maxLen : Nat) :
    ∀ (fuel : Nat) (text : List Char) (chunks : List (List Char)),
      segLoop maxLen fuel text = some chunks → chunks.flatten = text := by
  intro fuel
  induction fuel with
  | zero =>
    intro text chunks h
    unfold segLoop at h
    split at h
    · exact absurd h (by simp)
    · cases h
      simp_all [List.length_eq_zero]
  | succ fuel ih =>
    intro text chunks h
    unfold segLoop at h
    split at h
    · rcases Option.map_eq_some'.mp h with ⟨rest, hrest, rfl⟩
      rw [List.flatten_cons, ih _ _ hrest, segStep_append]
    · cases h
      simp_all [List.length_eq_zero]

lemma lastIndexOf_eq_none {c : Char} :
    ∀ {l : List Char}, c ∉ l → lastIndexOf c l = none := by
  intro l
  induction l with
  | nil => intro _; rfl
  | cons x xs ih =>
    intro h
    unfold lastIndexOf
    rw [ih (fun hm => h (List.mem_cons_of_mem x hm))]
    simp only [List.mem_cons, not_or] at h
    simp [Ne.symm h.1]

lemma take_replicate_of_le {a : Char} {n m : Nat} (h : n ≤ m) :
    (List.replicate m a).take n = List.replicate n a := by
  rw [List.take_replicate, Nat.min_eq_left h]

lemma getLast?_replicate_succ (n : Nat) (a : Char) :
    (List.replicate (n + 1) a).getLast? = some a := by
  rw [List.replicate_succ' n a, List.getLast?_concat]

lemma get?_replicate_succ (n : Nat) (a : Char) :
    (List.replicate (n + 1) a).get? n = some a := by
  induction n with
  | zero => rfl
  | succ n ih =>
    rw [List.replicate_succ]
    rw [List.get?_cons_succ]
    exact ih

/- Evaluation of one loop iteration at badInput: the window is 10000 copies
   of a non-space character, lastIndexOf(' ') is -1, so the pushed chunk is
   the empty string and the remaining text is the whole input, unchanged. -/
lemma segStep_badInput :
    segStep config.MAX_CHARACTERS badInput = ([], badInput) := by
  unfold segStep badInput config.MAX_CHARACTERS
  have htake : (List.replicate 10001 'a').take 10000 = List.replicate 10000 'a' :=
    take_replicate_of_le (by norm_num)
  have hlast : (List.replicate 10000 'a').getLast? = some 'a' :=
    getLast?_replicate_succ 9999 'a'
  have hlen : (List.replicate 10000 'a').length = 10000 := List.length_replicate _ _
  have hget : (List.replicate 10001 'a').get? 10000 = some 'a' :=
    get?_replicate_succ 10000 'a'
  have hnosp : lastIndexOf ' ' (List.replicate 10000 'a') = none :=
    lastIndexOf_eq_none (by
      intro hm
      have := List.eq_of_mem_replicate hm
      simp at this)
  rw [htake]
  dsimp only
  rw [hlast, hlen, hget, if_pos (by refine ⟨?_, ?_, ?_⟩ <;> simp), hnosp]
  rfl

/- When one iteration pushes the empty chunk and leaves the text unchanged,
   the loop never terminates: no amount of fuel yields a chunk list. -/
lemma segLoop_diverges {maxLen : Nat} {text : List Char}
    (hstep : segStep maxLen text = ([], text)) (htext : 0 < text.length) :
    ∀ fuel, segLoop maxLen fuel text = none := by
  intro fuel
  induction fuel with
  | zero => unfold segLoop; rw [if_pos htext]
  | succ fuel ih =>
    unfold segLoop
    rw [if_pos htext, hstep]
    simp [ih]

/- Unfolding equation for segStep with the let-bindings expanded. -/
lemma segStep_eq (maxLen : Nat) (text : List Char) :
    segStep maxLen text =
      if (text.take maxLen).getLast? ≠ some ' ' ∧
          text.get? (text.take maxLen).length ≠ some ' ' ∧
          text.get? (text.take maxLen).length ≠ none then
        ((text.take maxLen).take (match lastIndexOf ' ' (text.take maxLen) with
          | some i => i + 1
          | none => 0),
         text.drop ((text.take maxLen).take
           (match lastIndexOf ' ' (text.take maxLen) with
            | some i => i + 1
            | none => 0)).length)
      else (text.take maxLen, text.drop maxLen) := rfl

lemma lastIndexOf_get? {c : Char} :
    ∀ {l : List Char} {i : Nat}, lastIndexOf c l = some i → l.get? i = some c := by
  intro l
  induction l with
  | nil => intro i h; simp [lastIndexOf] at h
  | cons x xs ih =>
    intro i h
    unfold lastIndexOf at h
    cases hxs : lastIndexOf c xs with
    | some j =>
      rw [hxs] at h
      cases h
      rw [List.get?_cons_succ]
      exact ih hxs
    | none =>
      rw [hxs] at h
      by_cases hx : x = c
      · rw [if_pos hx] at h
        cases h
        simp [hx]
      · rw [if_neg hx] at h
        cases h

lemma head?_drop : ∀ (l : List Char) (n : Nat), (l.drop n).head? = l.get? n := by
  intro l
  induction l with
  | nil => intro n; simp
  | cons x xs ih =>
    intro n
    cases n with
    | zero => rfl
    | succ n => exact ih n

/- If an iteration pushes the empty chunk then it also failed to advance:
   the remaining text is the full input. -/
lemma segStep_fst_eq_nil {maxLen : Nat} {text : List Char}
    (htext : 0 < text.length) (h : (segStep maxLen text).1 = []) :
    segStep maxLen text = ([], text) := by
  rw [segStep_eq] at h ⊢
  split_ifs at h ⊢ with hc
  · dsimp only at h ⊢
    rw [h]
    simp
  · dsimp only at h ⊢
    have h0 : maxLen = 0 := by
      have := List.take_eq_nil_iff.mp h
      rcases this with h' | h'
      · simp_all
      · simp_all
    rw [h, h0, List.drop_zero]
/- In a terminating run of the chunking loop every produced chunk is
   non-empty (an empty chunk only arises in the diverging configuration). -/
lemma segLoop_chunks_ne_nil {maxLen : Nat} :
    ∀ (fuel : Nat) (text : List Char) (chunks : List (List Char)),
      segLoop maxLen fuel text = some chunks → ∀ c ∈ chunks, c ≠ [] := by
  intro fuel
  induction fuel with
  | zero =>
    intro text chunks h c hc
    unfold segLoop at h
    split at h
    · cases h
    · cases h; cases hc
  | succ fuel ih =>
    intro text chunks h c hc
    unfold segLoop at h
    split at h
    case isTrue htext =>
      rcases Option.map_eq_some'.mp h with ⟨rest, hrest, rfl⟩
      rcases List.mem_cons.mp hc with rfl | hm
      · intro hnil
        have hstep := segStep_fst_eq_nil htext hnil
        rw [hstep] at hrest
        dsimp only at hrest
        rw [segLoop_diverges hstep htext fuel] at hrest
        cases hrest
      · exact ih _ _ hrest c hm
    case isFalse => cases h; cases hc

/- A non-final boundary of a terminating run is adjacent to a space: the
   chunk ends with one or the remaining text begins with one. -/
lemma segStep_boundary {maxLen : Nat} {text : List Char}
    (h1 : (segStep maxLen text).1 ≠ []) (h2 : (segStep maxLen text).2 ≠ []) :
    (segStep maxLen text).1.getLast? = some ' ' ∨
      (segStep maxLen text).2.head? = some ' ' := by
  rw [segStep_eq] at h1 h2 ⊢
  split_ifs at h1 h2 ⊢ with hc
  · dsimp only at h1 ⊢
    left
    cases hli : lastIndexOf ' ' (text.take maxLen) with
    | none => rw [hli] at h1; exact (h1 rfl).elim
    | some i =>
      have hget : (text.take maxLen)[i]? = some ' ' := by
        rw [← List.get?_eq_getElem?]
        exact lastIndexOf_get? hli
      show ((text.take maxLen).take (i + 1)).getLast? = some ' '
      rw [List.take_succ, hget]
      simp
  · dsimp only at h2 ⊢
    have hc' : (text.take maxLen).getLast? = some ' ' ∨
        text.get? (text.take maxLen).length = some ' ' ∨
        text.get? (text.take maxLen).length = none := by
      tauto
    have hlt : maxLen < text.length := by
      by_contra hle
      exact h2 (List.drop_eq_nil_of_le (Nat.le_of_not_lt hle))
    have hlen : (text.take maxLen).length = maxLen := by
      rw [List.length_take, Nat.min_eq_left (Nat.le_of_lt hlt)]
    rcases hc' with h' | h' | h'
    · exact Or.inl h'
    · right
      rw [head?_drop, ← hlen]
      exact h'
    · rw [hlen, List.get?_eq_none] at h'
      exact absurd h' (Nat.not_le_of_lt hlt)

lemma get?_set {α : Type} :
    ∀ (l : List α) (i j : Nat) (a : α),
      (l.set i a).get? j = if i = j ∧ i < l.length then some a else l.get? j := by
  intro l
  induction l with
  | nil => intro i j a; simp
  | cons x xs ih =>
    intro i j a
    cases i with
    | zero =>
      cases j with
      | zero => simp
      | succ j => simp
    | succ i =>
      cases j with
      | zero => simp
      | succ j =>
        simp only [List.set_cons_succ, List.get?_cons_succ, List.length_cons]
        rw [ih]
        split_ifs with h1 h2 h2 <;> first | rfl | omega

lemma get?_replicate_lt {α : Type} :
    ∀ {n i : Nat} (a : α), i < n → (List.replicate n a).get? i = some a := by
  intro n
  induction n with
  | zero => intro i a h; omega
  | succ n ih =>
    intro i a h
    cases i with
    | zero => rfl
    | succ i =>
      rw [List.replicate_succ, List.get?_cons_succ]
      exact ih a (by omega)

/- Invariant-based correctness of the event-driven Promise.all model: if
   every event carries the value of its own slot and every slot is either
   already settled correctly or still has its event pending, folding the
   events settles exactly the expected list. -/
lemma settle_aux {α : Type} (rs : List α) :
    ∀ (events : List (Nat × α)) (acc : List (Option α)),
      acc.length = rs.length →
      (∀ p ∈ events, rs.get? p.1 = some p.2) →
      (∀ i v, rs.get? i = some v → acc.get? i = some (some v) ∨ (i, v) ∈ events) →
      (∀ i v', acc.get? i = some (some v') → rs.get? i = some v') →
      events.foldl (fun a e => a.set e.1 (some e.2)) acc = rs.map some := by
  intro events
  induction events with
  | nil =>
    intro acc hlen _hwf hcov _hsound
    simp only [List.foldl_nil]
    apply List.ext_get?
    intro i
    rw [List.get?_map]
    cases hri : rs.get? i with
    | some v =>
      rcases hcov i v hri with h | h
      · rw [h]; rfl
      · cases h
    | none =>
      have hge : rs.length ≤ i := List.get?_eq_none.mp hri
      exact List.get?_eq_none.mpr (by omega)
  | cons p es ih =>
    intro acc hlen hwf hcov hsound
    simp only [List.foldl_cons]
    apply ih
    · rw [List.length_set]; exact hlen
    · exact fun q hq => hwf q (List.mem_cons_of_mem p hq)
    · intro i v hri
      rw [get?_set]
      by_cases hcnd : p.1 = i ∧ p.1 < acc.length
      · rw [if_pos hcnd]
        left
        have hpv := hwf p (List.mem_cons_self p es)
        rcases hcnd with ⟨he, _⟩
        rw [he] at hpv
        rw [hpv] at hri
        injection hri with hv
        rw [hv]
      · rw [if_neg hcnd]
        rcases hcov i v hri with h | h
        · exact Or.inl h
        · rcases List.mem_cons.mp h with he | he
          · exfalso
            have h1 : p.1 = i := by rw [← he]
            have hi : i < rs.length := by
              by_contra hge
              rw [List.get?_eq_none.mpr (Nat.le_of_not_lt hge)] at hri
              cases hri
            exact hcnd ⟨h1, by rw [h1, hlen]; exact hi⟩
          · exact Or.inr he
    · intro i v' hai
      rw [get?_set] at hai
      by_cases hcnd : p.1 = i ∧ p.1 < acc.length
      · rw [if_pos hcnd] at hai
        injection hai with hv
        have hpv := hwf p (List.mem_cons_self p es)
        rcases hcnd with ⟨he, _⟩
        rw [he] at hpv
        rw [hpv, hv]
      · rw [if_neg hcnd] at hai
        exact hsound i v' hai

lemma mem_enumFrom_get? {α : Type} :
    ∀ (l : List α) (k : Nat) (p : Nat × α),
      p ∈ l.enumFrom k → k ≤ p.1 ∧ l.get? (p.1 - k) = some p.2 := by
  intro l
  induction l with
  | nil => intro k p hp; cases hp
  | cons x xs ih =>
    intro k p hp
    rw [List.enumFrom_cons] at hp
    rcases List.mem_cons.mp hp with rfl | hm
    · exact ⟨Nat.le_refl k, by simp⟩
    · rcases ih (k + 1) p hm with ⟨hk, hget⟩
      refine ⟨by omega, ?_⟩
      have hidx : p.1 - k = (p.1 - (k + 1)) + 1 := by omega
      rw [hidx, List.get?_cons_succ]
      exact hget

lemma get?_mem_enumFrom {α : Type} :
    ∀ (l : List α) (k i : Nat) (v : α),
      l.get? i = some v → (k + i, v) ∈ l.enumFrom k := by
  intro l
  induction l with
  | nil => intro k i v h; simp at h
  | cons x xs ih =>
    intro k i v h
    rw [List.enumFrom_cons]
    cases i with
    | zero =>
      injection h with hv
      rw [hv]
      exact List.mem_cons_self _ _
    | succ i =>
      rw [List.get?_cons_succ] at h
      refine List.mem_cons_of_mem _ ?_
      have heq : k + (i + 1) = (k + 1) + i := by omega
      rw [heq]
      exact ih (k + 1) i v h

lemma mem_enum_get? {α : Type} {l : List α} {p : Nat × α}
    (hp : p ∈ l.enum) : l.get? p.1 = some p.2 := by
  have := mem_enumFrom_get? l 0 p hp
  simpa using this.2

lemma get?_mem_enum {α : Type} {l : List α} {i : Nat} {v : α}
    (h : l.get? i = some v) : (i, v) ∈ l.enum := by
  have := get?_mem_enumFrom l 0 i v h
  simpa using this

/- Whatever order the completion events arrive in, the Promise.all model
   resolves with the values in slot-index order. -/
lemma promiseAllSettle_perm {α : Type} (rs : List α)
    (events : List (Nat × α)) (h : events.Perm rs.enum) :
    promiseAllSettle (List.replicate rs.length none) events = rs.map some := by
  apply settle_aux rs events
  · exact List.length_replicate _ _
  · exact fun p hp => mem_enum_get? (h.mem_iff.mp hp)
  · intro i v hri
    exact Or.inr (h.mem_iff.mpr (get?_mem_enum hri))
  · intro i v' hai
    exfalso
    rcases Nat.lt_or_ge i rs.length with hi | hi
    · rw [get?_replicate_lt (none : Option α) hi] at hai
      cases hai
    · rw [List.get?_eq_none.mpr (by rw [List.length_replicate]; exact hi)] at hai
      cases hai

/- If every chunk's request fulfills, Promise.all fulfills with the
   per-chunk results in chunk order. -/
lemma collectAll_map_ok {env : Env} {fuel : Nat}
    {f : List Char → ScienceIOResponse} :
    ∀ {chunks : List (List Char)},
      (∀ c ∈ chunks, _annotate_request env fuel c = some (.ok (f c))) →
      collectAll (chunks.map (_annotate_request env fuel)) =
        some (.ok (chunks.map f)) := by
  intro chunks
  induction chunks with
  | nil => intro _; rfl
  | cons c cs ih =>
    intro h
    have hc := h c (List.mem_cons_self c cs)
    have hcs := ih (fun x hx => h x (List.mem_cons_of_mem c hx))
    rw [List.map_cons, List.map_cons]
    simp [collectAll, hc, hcs]

/- If every poll attempt keeps answering SUBMITTED and every awaited
   network call takes at least one millisecond, the polling loop reaches
   the 300-second budget and throws TimeoutError. -/
lemma pollLoop_timeout {env : PollJobEnv}
    (hresp : ∀ n, _poll_attempt (env.response n) = .ok none)
    (hlat : ∀ n, 1 ≤ env.latency n) :
    ∀ (fuel n now : Nat),
      config.MAX_POLL_DURATION_SEC * 1000 + 1 ≤ fuel + now →
      1 ≤ fuel →
      pollLoop env 0 fuel n now = some (.error (mkTimeoutError none)) := by
  intro fuel
  induction fuel with
  | zero => intro n now _ hpos; omega
  | succ fuel ih =>
    intro n now hfuel _
    unfold pollLoop
    by_cases hnow : now - 0 < config.MAX_POLL_DURATION_SEC * 1000
    · rw [if_pos hnow, hresp n]
      apply ih
      · have := hlat n
        simp only [config.MAX_POLL_DURATION_SEC] at *
        unfold setTimeoutNoAwait
        omega
      · have hn : now < config.MAX_POLL_DURATION_SEC * 1000 := by omega
        simp only [config.MAX_POLL_DURATION_SEC] at *
        omega
    · rw [if_neg hnow]

/-- Claim C1, amended: for every input on which the chunking loop of
annotate terminates, concatenating the produced chunks in order yields
exactly the original text.  (The unamended universal claim fails: the loop
diverges on some non-empty inputs, producing no chunk list at all.) -/
theorem c1_round_trip (maxLen fuel : Nat) (text : List Char)
    (chunks : List (List Char))
    (h : segLoop maxLen fuel text = some chunks) :
    chunks.flatten = text :=
  segLoop_flatten maxLen fuel text chunks h

/-- Witness for c1_round_trip at spec Scenario 1: "hello world" with
max_length 5 splits into "hello" / " " / "world" and concatenates back. -/
theorem c1_round_trip_witness :
    segLoop 5 3 ['h','e','l','l','o',' ','w','o','r','l','d'] =
      some [['h','e','l','l','o'], [' '], ['w','o','r','l','d']] ∧
    [['h','e','l','l','o'], [' '], ['w','o','r','l','d']].flatten =
      ['h','e','l','l','o',' ','w','o','r','l','d'] :=
  ⟨by decide, c1_round_trip 5 3 _ _ (by decide)⟩

/-- Claim C1, counterexample to the claim as stated: for the non-empty
input of 10001 copies of a non-space character, annotate's chunking loop
never produces a chunk list (it diverges for every amount of fuel), so no
concatenation of produced chunks reconstructs the input. -/
theorem c1_spec_counterexample :
    ¬ (∀ text : List Char, 0 < text.length →
        ∃ fuel chunks,
          segLoop config.MAX_CHARACTERS fuel text = some chunks ∧
          chunks.flatten = text) := by
  intro hclaim
  have hpos : 0 < badInput.length := by
    rw [show badInput.length = 10001 from List.length_replicate _ _]
    omega
  rcases hclaim badInput hpos with ⟨fuel, chunks, hseg, _⟩
  rw [segLoop_diverges segStep_badInput hpos fuel] at hseg
  cases hseg

/-- Claim C2 (code bug evidence): at the failing input — a single token of
10001 non-space characters, so the 10000-character window holds no
whitespace and text remains beyond it — the loop body does NOT emit the
full untrimmed window and advance as the spec requires: it pushes the
empty chunk, leaves the remaining text unchanged, and consequently the
segmentation loop never terminates. -/
theorem c2_nontermination :
    segStep config.MAX_CHARACTERS badInput = ([], badInput) ∧
    0 < badInput.length ∧
    (∀ fuel, segLoop config.MAX_CHARACTERS fuel badInput = none) := by
  have hpos : 0 < badInput.length := by
    rw [show badInput.length = 10001 from List.length_replicate _ _]
    omega
  exact ⟨segStep_badInput, hpos, segLoop_diverges segStep_badInput hpos⟩

/-- Claim C3, amended: on empty input annotate returns — as an ordinary
value, not a raised exception — a base ScienceIOError with message "Must
pass at least one character to the API".  The outcome is identical for
every remote environment and fuel, so no chunk is produced and no network
call is made. -/
theorem c3_empty_input_return (env : Env) (fuel : Nat) :
    annotate env fuel [] =
      some (.earlyReturn
        (mkScienceIOError
          (some "Must pass at least one character to the API"))) := rfl

/-- Claim C3, counterexample to the claim as stated: the source has no
InvalidInputError class at all, and the base ScienceIOError it builds for
empty input is returned as a value, not raised — the outcome is not a
failure of any kind. -/
theorem c3_spec_counterexample :
    annotate envDown 1 [] =
      some (.earlyReturn
        (.scienceIOError "Must pass at least one character to the API")) ∧
    (∀ e : SIOError, annotate envDown 1 [] ≠ some (.failure e)) := by
  refine ⟨rfl, fun e h => ?_⟩
  rw [show annotate envDown 1 [] =
      some (.earlyReturn
        (.scienceIOError "Must pass at least one character to the API"))
    from rfl] at h
  simp at h

/-- Claim C4 (code bug evidence): the submission success check is the
strict `200 < response.status`, so an HTTP 200 response with a request_id
in its body makes submit return undefined — neither the service-issued
request_id the claim promises nor an error.  Statuses 201-299 do return
the request_id, and statuses outside 200-299 raise HTTPError carrying the
status code and the body message, as the claim says. -/
theorem c4_status_200_returns_undefined :
    send_initial_request ⟨200, ⟨some "req-1", none⟩⟩ = .ok none ∧
    send_initial_request ⟨201, ⟨some "req-1", none⟩⟩ = .ok (some "req-1") ∧
    send_initial_request ⟨500, ⟨none, some "server error"⟩⟩ =
      .error (.httpError 500 "server error") :=
  ⟨rfl, rfl, rfl⟩

/-- Claim C5, counterexample to the claim as stated: there is no distinct
UnknownStatusError (nor a distinct AnnotationError) — an ERRORED payload
whose service message happens to be "Unknown status" and an unrecognized
status value produce the very same error value of the one base class. -/
theorem c5_spec_counterexample :
    _poll_payload_handler ⟨"ERRORED", none, some "Unknown status"⟩ =
      _poll_payload_handler ⟨"SOMETHING_ELSE", none, none⟩ ∧
    _poll_payload_handler ⟨"ERRORED", none, some "Unknown status"⟩ =
      .error (.scienceIOError "Unknown status") :=
  ⟨rfl, rfl⟩

/-- Claim C5, amended: the normalizer returns null on SUBMITTED, the
inference_result on COMPLETED, fails with the base ScienceIOError carrying
the service message on ERRORED, and with ScienceIOError "Unknown status"
on any other status; the last two share one error class and are told apart
only by their message strings. -/
theorem c5_normalizer_cases (payload : PollPayload) :
    (payload.inference_status = scienceio_inference_status.SUBMITTED →
      _poll_payload_handler payload = .ok none) ∧
    (payload.inference_status = scienceio_inference_status.COMPLETED →
      _poll_payload_handler payload = .ok payload.inference_result) ∧
    (payload.inference_status = scienceio_inference_status.ERRORED →
      _poll_payload_handler payload =
        .error (mkScienceIOError payload.message)) ∧
    (payload.inference_status ≠ scienceio_inference_status.SUBMITTED →
      payload.inference_status ≠ scienceio_inference_status.COMPLETED →
      payload.inference_status ≠ scienceio_inference_status.ERRORED →
      _poll_payload_handler payload =
        .error (mkScienceIOError (some "Unknown status"))) := by
  refine ⟨fun h => ?_, fun h => ?_, fun h => ?_, fun h1 h2 h3 => ?_⟩
  · unfold _poll_payload_handler
    rw [h, if_pos rfl]
  · unfold _poll_payload_handler
    rw [h, if_neg (by decide), if_pos rfl]
  · unfold _poll_payload_handler
    rw [h, if_neg (by decide), if_neg (by decide), if_pos rfl]
  · unfold _poll_payload_handler
    rw [if_neg h1, if_neg h2, if_neg h3]

/-- Witness for c5_normalizer_cases at an ERRORED payload carrying the
service message "boom". -/
theorem c5_normalizer_cases_witness :
    _poll_payload_handler ⟨"ERRORED", none, some "boom"⟩ =
      .error (mkScienceIOError (some "boom")) :=
  (c5_normalizer_cases ⟨"ERRORED", none, some "boom"⟩).2.2.1 rfl

/-- Claim C6: in every terminating segmentation run, every chunk boundary
except the final one is adjacent to a space — the chunk before it ends
with a space or the chunk after it begins with one (a space is the only
whitespace the source checks).  This is the claim strengthened: the
over-length-token disjunct is never exercised, because that configuration
makes the loop diverge and so produces no boundary at all. -/
theorem c6_no_midword_boundary (maxLen : Nat) :
    ∀ (fuel : Nat) (text : List Char) (chunks : List (List Char)),
      segLoop maxLen fuel text = some chunks →
      ∀ i, i + 1 < chunks.length →
        ∃ c₁ c₂, chunks.get? i = some c₁ ∧ chunks.get? (i + 1) = some c₂ ∧
          (c₁.getLast? = some ' ' ∨ c₂.head? = some ' ') := by
  intro fuel
  induction fuel with
  | zero =>
    intro text chunks h i hi
    unfold segLoop at h
    split at h
    · cases h
    · cases h; simp at hi
  | succ fuel ih =>
    intro text chunks h i hi
    unfold segLoop at h
    split at h
    case isFalse => cases h; simp at hi
    case isTrue htext =>
      rcases Option.map_eq_some'.mp h with ⟨rest, hrest, rfl⟩
      cases i with
      | succ i =>
        have hi' : i + 1 < rest.length := by
          rw [List.length_cons] at hi
          omega
        rcases ih _ _ hrest i hi' with ⟨c₁, c₂, h1, h2, h3⟩
        exact ⟨c₁, c₂, by rw [List.get?_cons_succ]; exact h1,
          by rw [List.get?_cons_succ]; exact h2, h3⟩
      | zero =>
        cases hr : rest with
        | nil =>
          rw [hr] at hi
          simp at hi
        | cons c₂ rest' =>
          subst hr
          have hc1 : (segStep maxLen text).1 ≠ [] := by
            intro hnil
            have hstep := segStep_fst_eq_nil htext hnil
            rw [hstep] at hrest
            dsimp only at hrest
            rw [segLoop_diverges hstep htext fuel] at hrest
            cases hrest
          have hc2 : c₂ ≠ [] :=
            segLoop_chunks_ne_nil fuel _ _ hrest c₂ (List.mem_cons_self _ _)
          have hflat : (c₂ :: rest').flatten = (segStep maxLen text).2 :=
            segLoop_flatten maxLen fuel _ _ hrest
          have hsne : (segStep maxLen text).2 ≠ [] := by
            rw [← hflat]
            cases c₂ with
            | nil => exact absurd rfl hc2
            | cons y ys => simp
          have hb := segStep_boundary hc1 hsne
          refine ⟨(segStep maxLen text).1, c₂, rfl, rfl, ?_⟩
          rcases hb with hb | hb
          · exact Or.inl hb
          · right
            rw [← hflat] at hb
            cases c₂ with
            | nil => exact absurd rfl hc2
            | cons y ys => simpa using hb

/-- Witness for c6_no_midword_boundary: the first boundary of the
"hello world" run at max_length 5 is followed by the chunk " ". -/
theorem c6_no_midword_boundary_witness :
    segLoop 5 3 ['h','e','l','l','o',' ','w','o','r','l','d'] =
      some [['h','e','l','l','o'], [' '], ['w','o','r','l','d']] ∧
    (∃ c₁ c₂,
      [['h','e','l','l','o'], [' '], ['w','o','r','l','d']].get? 0 = some c₁ ∧
      [['h','e','l','l','o'], [' '], ['w','o','r','l','d']].get? 1 = some c₂ ∧
      (c₁.getLast? = some ' ' ∨ c₂.head? = some ' ')) :=
  ⟨by decide,
    c6_no_midword_boundary 5 3 ['h','e','l','l','o',' ','w','o','r','l','d']
      [['h','e','l','l','o'], [' '], ['w','o','r','l','d']]
      (by decide) 0 (by decide)⟩

/-- Claim C7 (code bug evidence): the setTimeout between poll attempts is
never awaited, so the loop does not pause.  With instantaneous network
calls and three SUBMITTED answers before COMPLETED (spec Scenario 4), the
completed result is delivered at clock 0 — not after the three poll
intervals (3 × 2000 ms > 0) the claim requires to have elapsed. -/
theorem c7_no_pause_between_polls :
    pollLoop pollEnvScenario4 0 10 0 0 =
      some (.ok (⟨some "annotated text", none⟩, 0)) ∧
    0 < 3 * (config.POLL_SLEEP_DURATION_SEC * 1000) :=
  ⟨rfl, by decide⟩

/-- Claim C8: when no poll attempt ever returns a terminal result (every
answer is SUBMITTED) and every awaited network call takes at least one
millisecond, the per-chunk polling loop exceeds the 300-second budget and
fails with TimeoutError, delivering no result. -/
theorem c8_timeout (env : PollJobEnv)
    (hresp : ∀ n, _poll_attempt (env.response n) = .ok none)
    (hlat : ∀ n, 1 ≤ env.latency n)
    (fuel : Nat) (hfuel : config.MAX_POLL_DURATION_SEC * 1000 + 1 ≤ fuel) :
    pollLoop env 0 fuel 0 0 = some (.error (mkTimeoutError none)) :=
  pollLoop_timeout hresp hlat fuel 0 0 (by omega) (by
    simp only [config.MAX_POLL_DURATION_SEC] at hfuel
    omega)

/-- Witness for c8_timeout: the always-SUBMITTED endpoint with 1 ms round
trips times out. -/
theorem c8_timeout_witness :
    pollLoop pollEnvStuck 0 300001 0 0 =
      some (.error (mkTimeoutError none)) :=
  c8_timeout pollEnvStuck (fun _ => rfl) (fun _ => Nat.le_refl 1) 300001
    (by decide)

/-- Claim C9: when segmentation terminates and every chunk's concurrent
unit fulfills, annotate returns exactly the per-chunk results in original
chunk order; and whatever order the completion events arrive in (any
permutation), the Promise.all model resolves with the values in slot-index
order, not completion order. -/
theorem c9_order_preservation (env : Env) (fuel : Nat) (text : List Char)
    (chunks : List (List Char)) (f : List Char → ScienceIOResponse)
    (events : List (Nat × ScienceIOResponse))
    (htext : 0 < text.length)
    (hseg : segLoop config.MAX_CHARACTERS fuel text = some chunks)
    (hok : ∀ c ∈ chunks, _annotate_request env fuel c = some (.ok (f c)))
    (hperm : events.Perm (chunks.map f).enum) :
    annotate env fuel text = some (.success (chunks.map f)) ∧
    promiseAllSettle (List.replicate (chunks.map f).length none) events =
      (chunks.map f).map some := by
  constructor
  · unfold annotate
    rw [if_neg (by omega), hseg]
    dsimp only
    rw [collectAll_map_ok hok]
  · exact promiseAllSettle_perm _ events hperm

/-- Witness for c9_order_preservation: a single-chunk input against the
healthy environment. -/
theorem c9_order_preservation_witness :
    annotate envHappy 2 ['h','i'] = some (.success [happyResponse]) ∧
    promiseAllSettle (List.replicate 1 none) [(0, happyResponse)] =
      [some happyResponse] :=
  c9_order_preservation envHappy 2 ['h','i'] [['h','i']]
    (fun _ => happyResponse) [(0, happyResponse)]
    (by decide) (by decide)
    (by
      intro c hc
      rw [List.mem_singleton] at hc
      subst hc
      rfl)
    (List.Perm.refl _)

/-- Claim C10: every ScienceIOResponse produced by a successful per-chunk
request has inference_status COMPLETED and model_type "structure"
unconditionally (hardcoded in the object literal, not read from the remote
payload), and its text and spans fields are copied from the server's
polled inference_result, not from the submitted chunk. -/
theorem c10_hardcoded_response_fields (env : Env) (fuel : Nat)
    (chunk : List Char) (res : ScienceIOResponse)
    (h : _annotate_request env fuel chunk = some (.ok res)) :
    res.inference_status = scienceio_inference_status.COMPLETED ∧
    res.model_type = scienceio_model_type.STRUCTURE ∧
    ∃ response arrival,
      pollLoop (env.pollJob chunk) 0 fuel 0 0 = some (.ok (response, arrival)) ∧
      res.text = response.text ∧ res.spans = response.spans := by
  unfold _annotate_request at h
  cases hs : send_initial_request (env.submit chunk) with
  | error e => rw [hs] at h; simp at h
  | ok rid =>
    rw [hs] at h
    dsimp only at h
    cases hp : pollLoop (env.pollJob chunk) 0 fuel 0 0 with
    | none => rw [hp] at h; simp at h
    | some r =>
      cases r with
      | error e => rw [hp] at h; simp at h
      | ok pr =>
        cases pr with
        | mk response arrival =>
          rw [hp] at h
          dsimp only at h
          simp only [Option.some.injEq, Except.ok.injEq] at h
          subst h
          exact ⟨rfl, rfl, response, arrival, rfl, rfl, rfl⟩

/-- Witness for c10_hardcoded_response_fields: the healthy environment's
response for the chunk "hi" carries the server text, not the chunk. -/
theorem c10_hardcoded_response_fields_witness :
    _annotate_request envHappy 2 ['h','i'] = some (.ok happyResponse) ∧
    happyResponse.inference_status = scienceio_inference_status.COMPLETED ∧
    happyResponse.model_type = scienceio_model_type.STRUCTURE ∧
    happyResponse.text = some "SERVER TEXT" ∧
    happyResponse.text ≠ some "hi" :=
  ⟨rfl,
    (c10_hardcoded_response_fields envHappy 2 ['h','i'] happyResponse rfl).1,
    (c10_hardcoded_response_fields envHappy 2 ['h','i'] happyResponse rfl).2.1,
    rfl, by decide⟩
